import Mathlib

/-!
# Verification of `rotate_backups` (rotate-backups 2.0)

A shallow embedding of `src/rotate_backups/__init__.py` together with
theorems settling the specification claims about it.

Modelling conventions:

* Python `datetime.datetime` values are a six-field structure of `Nat`s;
  the constructor's range validation is modelled by `datetimeMk` returning
  `Except` (a `ValueError` becomes `Except.error`).
* `dateutil.relativedelta` arithmetic (the only arithmetic the program
  performs on datetimes) is modelled by `deltaSub`, including the
  calendar-aware month/year subtraction with day clamping.
* Python's stable `sorted` is modelled by the stable insertion sort
  `sortOn` (all stable sorts agree, so this is extensionally Python's
  Timsort for the comparators used here).
* Python `dict`s are insertion-ordered association lists.  Dictionary key
  lookup uses hash equality followed by `__eq__`; `Backup.__hash__` hashes
  the pathname string, which we model as an injective function of the
  pathname (CPython string hashes of the distinct pathnames appearing in
  any run are collision-free in practice).
* `dict.items()` iteration in `apply_rotation_scheme` is modelled as
  iteration over a snapshot (Python 2 semantics, which this 2015 code was
  written for; the buckets are singletons at that point so the
  remove-while-iterating loop is faithfully a filter).
* External collaborators that the core only calls opaquely
  (`fnmatch.fnmatch`) are parameters; the `natsort` pre-sort is modelled
  as the stable natural sort on digit-run keys.
-/

/-! ## Definitions: the shallow embedding -/



/-- Lexicographic strict comparison of lists given a strict comparison on
elements, as Python compares tuples and lists: a proper prefix is smaller. -/
def lexLtBy (lt : α → α → Bool) : List α → List α → Bool
  | _, [] => false
  | [], _ :: _ => true
  | a :: as, b :: bs => if lt a b then true else if lt b a then false else lexLtBy lt as bs

/-- Strict comparison of `Nat` as a Bool. -/
def natLtB (a b : Nat) : Bool := decide (a < b)

/-- Lexicographic comparison of `List Nat` (Python tuple comparison, used for
period keys, datetime field tuples, and natural-sort chunks). -/
def lexNat : List Nat → List Nat → Bool := lexLtBy natLtB

/-- Insert `x` into `l` before the first element strictly greater than it
(so after any element equivalent to it). -/
def insLt (lt : α → α → Bool) (x : α) : List α → List α
  | [] => [x]
  | y :: ys => if lt x y then x :: y :: ys else y :: insLt lt x ys

/-- Stable insertion sort: elements are taken left to right and each is
inserted after all earlier elements not strictly greater than it.  This is
extensionally Python's stable `sorted(...)` with `lt` the comparator. -/
def sortOn (lt : α → α → Bool) (l : List α) : List α :=
  l.foldl (fun acc x => insLt lt x acc) []

/-- A Python `datetime.datetime` value (microseconds are always zero in this
program: the timestamp pattern only produces whole seconds). -/
structure DateTime where
  year : Nat
  month : Nat
  day : Nat
  hour : Nat
  minute : Nat
  second : Nat

deriving DecidableEq

/-- The comparison tuple of a datetime. -/
def dtFields (dt : DateTime) : List Nat :=
  [dt.year, dt.month, dt.day, dt.hour, dt.minute, dt.second]

/-- Python `datetime.__lt__`: lexicographic comparison of the field tuples. -/
def dtLt (a b : DateTime) : Bool := lexNat (dtFields a) (dtFields b)

def isLeap (y : Nat) : Bool := (y % 4 == 0 && y % 100 != 0) || y % 400 == 0

def daysInMonth (y m : Nat) : Nat :=
  if m = 2 then (if isLeap y then 29 else 28)
  else if m = 4 ∨ m = 6 ∨ m = 9 ∨ m = 11 then 30
  else 31

/-- Days in year `y` strictly before month `m` (for `1 ≤ m ≤ 12`). -/
def daysBeforeMonth (y m : Nat) : Nat :=
  [0, 0, 31, 59, 90, 120, 151, 181, 212, 243, 273, 304, 334].getD m 0
    + (if 2 < m && isLeap y then 1 else 0)

/-- Leap-adjusted day count of the `n` years 1..n. -/
def gregDays (n : Nat) : Nat := 365 * n + n / 4 + n / 400 - n / 100

/-- Rata-die day number: 0001-01-01 is day 1 (requires `1 ≤ y`). -/
def rataDie (y m d : Nat) : Nat := gregDays (y - 1) + daysBeforeMonth y m + d

/-- Inverse of `rataDie` (civil-from-days, Gregorian).  `N` is a rata-die
day number; returns `(year, month, day)`. -/
def civilFromDays (N : Nat) : Nat × Nat × Nat :=
  let z := N + 305
  let era := z / 146097
  let doe := z % 146097
  let yoe := (doe - doe / 1460 + doe / 36524 - doe / 146096) / 365
  let y0 := yoe + era * 400
  let doy := doe - (365 * yoe + yoe / 4 - yoe / 100)
  let mp := (5 * doy + 2) / 153
  let d := doy - (153 * mp + 2) / 5 + 1
  let m := if mp < 10 then mp + 3 else mp - 9
  (if m ≤ 2 then y0 + 1 else y0, m, d)

/-- ISO weekday of a rata-die day number: 1 = Monday .. 7 = Sunday. -/
def isoDayOfWeek (N : Nat) : Nat := (N - 1) % 7 + 1

/-- Whether ISO year `y` has 53 weeks. -/
def isoLongYear (y : Nat) : Bool :=
  let jan1dow := isoDayOfWeek (rataDie y 1 1)
  jan1dow == 4 || (isLeap y && jan1dow == 3)

/-- The ISO week number returned by Python's `datetime.isocalendar()[1]`. -/
def isoWeekNum (y m d : Nat) : Nat :=
  let dow := isoDayOfWeek (rataDie y m d)
  let doy := daysBeforeMonth y m + d
  let w := (doy + 10 - dow) / 7
  if w = 0 then (if isoLongYear (y - 1) then 53 else 52)
  else if w = 53 && !isoLongYear y then 1
  else w

/-- Seconds since 0001-01-01 00:00:00. -/
def dtToSecs (dt : DateTime) : Nat :=
  (rataDie dt.year dt.month dt.day - 1) * 86400
    + dt.hour * 3600 + dt.minute * 60 + dt.second

/-- Subtract `k` whole days from a calendar date. -/
def dateSubDays (y m d k : Nat) : Nat × Nat × Nat :=
  civilFromDays (rataDie y m d - k)

/-- `dt - timedelta(seconds=k)`: exact datetime arithmetic, as performed by
Python when a `relativedelta` with only hour/day/week components is
subtracted from a `datetime`. -/
def subSeconds (dt : DateTime) (k : Nat) : DateTime :=
  let tod := dt.hour * 3600 + dt.minute * 60 + dt.second
  if k ≤ tod then
    let t := tod - k
    { dt with hour := t / 3600, minute := t % 3600 / 60, second := t % 60 }
  else
    let rem := k - tod
    let days := (rem + 86399) / 86400
    let t := days * 86400 - rem
    let ymd := dateSubDays dt.year dt.month dt.day days
    ⟨ymd.1, ymd.2.1, ymd.2.2, t / 3600, t % 3600 / 60, t % 60⟩

/-- `dt - relativedelta(months=k)`: calendar-aware month subtraction with the
day clamped into the target month, as `dateutil` does. -/
def subMonths (dt : DateTime) (k : Nat) : DateTime :=
  let t := 12 * (dt.year - 1) + (dt.month - 1) - k
  let y := t / 12 + 1
  let m := t % 12 + 1
  { dt with year := y, month := m, day := min dt.day (daysInMonth y m) }

/-- `dt - relativedelta(years=k)`: year subtraction with the day clamped
(Feb 29 maps to Feb 28 in a non-leap target year), as `dateutil` does. -/
def subYears (dt : DateTime) (k : Nat) : DateTime :=
  let y := dt.year - k
  { dt with year := y, day := min dt.day (daysInMonth y dt.month) }

/-- The five rotation frequencies (`ORDERED_FREQUENCIES`). -/
inductive Frequency
  | hourly
  | daily
  | weekly
  | monthly
  | yearly

deriving DecidableEq

/-- The canonical ascending frequency order of `ORDERED_FREQUENCIES`. -/
def orderedFrequencies : List Frequency :=
  [.hourly, .daily, .weekly, .monthly, .yearly]

/-- `most_recent_backup - SUPPORTED_FREQUENCIES[frequency] * retention_period`:
subtracting the frequency's `relativedelta` scaled by `k`. -/
def deltaSub (f : Frequency) (k : Nat) (dt : DateTime) : DateTime :=
  match f with
  | .hourly => subSeconds dt (3600 * k)
  | .daily => subSeconds dt (86400 * k)
  | .weekly => subSeconds dt (604800 * k)
  | .monthly => subMonths dt k
  | .yearly => subYears dt k

/-- Range validity exactly as checked by the `datetime.datetime` constructor. -/
def dtValid (dt : DateTime) : Bool :=
  1 ≤ dt.year && dt.year ≤ 9999 && 1 ≤ dt.month && dt.month ≤ 12
    && 1 ≤ dt.day && dt.day ≤ daysInMonth dt.year dt.month
    && dt.hour ≤ 23 && dt.minute ≤ 59 && dt.second ≤ 59

/-- The `datetime.datetime(...)` constructor: validates the ranges and raises
`ValueError` otherwise. -/
def datetimeMk (y mo d h mi s : Nat) : Except String DateTime :=
  let dt : DateTime := ⟨y, mo, d, h, mi, s⟩
  if dtValid dt then .ok dt else .error "ValueError"

/-- Decimal value of a run of digit characters. -/
def natOfDigits (cs : List Char) : Nat :=
  cs.foldl (fun acc c => acc * 10 + (c.toNat - 48)) 0

/-- Split a character list into maximal runs of digits / non-digits,
tagging digit runs with `true`. -/
def splitRuns : List Char → List (Bool × List Char)
  | [] => []
  | c :: cs =>
    match splitRuns cs with
    | [] => [(c.isDigit, [c])]
    | (b, run) :: rest =>
      if b = c.isDigit then (b, c :: run) :: rest
      else (c.isDigit, [c]) :: (b, run) :: rest

/-- Encode one run for comparison: digit runs by numeric value, text runs
by their character codes. -/
def chunkEncode (r : Bool × List Char) : List Nat :=
  if r.1 then [1, natOfDigits r.2] else 0 :: r.2.map Char.toNat

/-- The natural-sort key of a name: digit runs compare numerically, text
runs lexicographically by code point. -/
def natKey (s : String) : List (List Nat) := (splitRuns s.data).map chunkEncode

/-- Natural-sort comparison of names. -/
def natLt (a b : String) : Bool := lexLtBy lexNat (natKey a) (natKey b)

/-- A rotation subject: a pathname and the datetime parsed from it. -/
structure Backup where
  pathname : String
  datetime : DateTime

deriving DecidableEq

/-- `Backup.__lt__`: ordering by datetime only. -/
def backupLt (a b : Backup) : Bool := dtLt a.datetime b.datetime

/-- `Backup.__eq__`: same concrete type (automatic in this embedding) and
equal datetime; the pathname plays no role. -/
def backupBeq (a b : Backup) : Bool := decide (a.datetime = b.datetime)

/-- `Backup.__hash__` is `hash(self.pathname)`.  CPython's string hash is
modelled as an injective function, so hash equality is pathname equality. -/
def backupHashKey (b : Backup) : String := b.pathname

/-- Whether a stored dictionary key matches a probe key, as CPython dicts
decide it: equal hashes, then `__eq__`. -/
def backupDictKeyMatch (a b : Backup) : Bool :=
  backupHashKey a == backupHashKey b && backupBeq a b

/-- Insertion into a Python dict keyed by `Backup`s: replace the value of
the first slot whose key matches (hash and `__eq__`), else append. -/
def pyDictInsert (d : List (Backup × β)) (k : Backup) (v : β) : List (Backup × β) :=
  match d with
  | [] => [(k, v)]
  | (k0, v0) :: rest =>
    if backupDictKeyMatch k0 k then (k0, v) :: rest
    else (k0, v0) :: pyDictInsert rest k v

/-- Numeric value of a digit character. -/
def digitVal (c : Char) : Nat := c.toNat - 48

/-- Match `\d\d` at the head, returning its value and the rest. -/
def takeDigits2 : List Char → Option (Nat × List Char)
  | c1 :: c2 :: rest =>
    if c1.isDigit && c2.isDigit then some (digitVal c1 * 10 + digitVal c2, rest) else none
  | _ => none

/-- Match `\d{4}` at the head. -/
def takeDigits4 (cs : List Char) : Option (Nat × List Char) :=
  match takeDigits2 cs with
  | none => none
  | some (hi, rest) =>
    match takeDigits2 rest with
    | none => none
    | some (lo, rest2) => some (hi * 100 + lo, rest2)

/-- Match `\D?` at the head (greedily consume one non-digit if present; the
subsequent pattern parts all require digits, so this is exact). -/
def skipNonDigit : List Char → List Char
  | [] => []
  | c :: cs => if c.isDigit then c :: cs else cs

/-- Match `TIMESTAMP_PATTERN` anchored at the head of `cs`, with the
defaulting of `match.groups('0')`: unmatched optional groups become 0.
The optional hour/minute suffix only contributes if hour and minute both
match; the optional seconds group only if two further digits are present. -/
def tsMatchAt (cs : List Char) : Option (Nat × Nat × Nat × Nat × Nat × Nat) :=
  match takeDigits4 cs with
  | none => none
  | some (y, cs1) =>
    match takeDigits2 (skipNonDigit cs1) with
    | none => none
    | some (mo, cs2) =>
      match takeDigits2 (skipNonDigit cs2) with
      | none => none
      | some (d, cs3) =>
        match takeDigits2 (skipNonDigit cs3) with
        | none => some (y, mo, d, 0, 0, 0)
        | some (h, cs4) =>
          match takeDigits2 (skipNonDigit cs4) with
          | none => some (y, mo, d, 0, 0, 0)
          | some (mi, cs5) =>
            match takeDigits2 (skipNonDigit cs5) with
            | none => some (y, mo, d, h, mi, 0)
            | some (s, _) => some (y, mo, d, h, mi, s)

/-- `re.search`: try the pattern at each start position, leftmost first. -/
def tsSearchAux : List Char → Option (Nat × Nat × Nat × Nat × Nat × Nat)
  | [] => tsMatchAt []
  | c :: cs =>
    match tsMatchAt (c :: cs) with
    | some r => some r
    | none => tsSearchAux cs

/-- Search an entry name for the timestamp pattern. -/
def tsSearch (entry : String) : Option (Nat × Nat × Nat × Nat × Nat × Nat) :=
  tsSearchAux entry.data

/-- `os.path.join(directory, entry)` for an absolute directory. -/
def pathJoin (dir entry : String) : String := dir ++ "/" ++ entry

/-- Processing of a single directory entry inside the `collect_backups`
loop.  `fnmatchFn` is the external `fnmatch.fnmatch` collaborator.  A
`ValueError` from the datetime constructor propagates (the loop has no
handler for it). -/
def collectStep (fnmatchFn : String → String → Bool)
    (includeList excludeList : List String) (dir : String)
    (acc : Except String (List Backup)) (entry : String) :
    Except String (List Backup) :=
  match acc with
  | .error e => .error e
  | .ok backups =>
    match tsSearch entry with
    | none => .ok backups
    | some (y, mo, d, h, mi, s) =>
      if !excludeList.isEmpty && excludeList.any (fun p => fnmatchFn entry p) then
        .ok backups
      else if !includeList.isEmpty && !includeList.any (fun p => fnmatchFn entry p) then
        .ok backups
      else
        match datetimeMk y mo d h mi s with
        | .error e => .error e
        | .ok dt => .ok (backups ++ [⟨pathJoin dir entry, dt⟩])

/-- `collect_backups`: natural-sort the listing, scan each entry for a
timestamp, filter, construct `Backup`s, and return them sorted by datetime. -/
def collectBackups (fnmatchFn : String → String → Bool)
    (includeList excludeList : List String) (dir : String)
    (entries : List String) : Except String (List Backup) :=
  match (sortOn natLt entries).foldl
      (collectStep fnmatchFn includeList excludeList dir) (.ok []) with
  | .error e => .error e
  | .ok backups => .ok (sortOn backupLt backups)

/-- A Python dict from period key to list of backups, in insertion order. -/
abbrev PeriodMap := List (List Nat × List Backup)

/-- `defaultdict(list)` append: extend the bucket of `k` in place, or add a
new bucket at the end. -/
def bucketAdd (m : PeriodMap) (k : List Nat) (b : Backup) : PeriodMap :=
  match m with
  | [] => [(k, [b])]
  | (k0, bs) :: rest =>
    if k0 = k then (k0, bs ++ [b]) :: rest
    else (k0, bs) :: bucketAdd rest k b

/-- The grouping key of a backup for each frequency, as tuples of calendar
fields (the weekly key pairs the calendar year with the ISO week number,
and the yearly key is the bare year). -/
def periodKey (f : Frequency) (b : Backup) : List Nat :=
  match f with
  | .hourly => [b.datetime.year, b.datetime.month, b.datetime.day, b.datetime.hour]
  | .daily => [b.datetime.year, b.datetime.month, b.datetime.day]
  | .weekly => [b.datetime.year, isoWeekNum b.datetime.year b.datetime.month b.datetime.day]
  | .monthly => [b.datetime.year, b.datetime.month]
  | .yearly => [b.datetime.year]

/-- `group_backups`: bucket the collected backups for one frequency. -/
def groupBackups (backups : List Backup) (f : Frequency) : PeriodMap :=
  backups.foldl (fun m b => bucketAdd m (periodKey f b) b) []

/-- A rotation scheme value: a finite count of periods, or `'always'`. -/
inductive SchemeVal
  | count (k : Nat)
  | always

deriving DecidableEq

/-- A rotation scheme: frequencies absent from the dictionary map to `none`. -/
abbrev RotationScheme := Frequency → Option SchemeVal

/-- `sorted(backups_in_period)[0]` wrapped in a singleton: the oldest backup
of a period.  (Group buckets are never empty; on `[]`, where Python would
raise `IndexError`, this returns `[]`.) -/
def reduceBucket (bs : List Backup) : List Backup :=
  match sortOn backupLt bs with
  | [] => []
  | b :: _ => [b]

/-- The per-period reduction step: one representative per period. -/
def reduceMap (m : PeriodMap) : PeriodMap :=
  m.map (fun kb => (kb.1, reduceBucket kb.2))

/-- The aging step: drop every backup strictly older than `minDate` from its
bucket, then drop the periods whose bucket became empty. -/
def ageMap (minDate : DateTime) (m : PeriodMap) : PeriodMap :=
  (m.map (fun kb => (kb.1, kb.2.filter (fun b => !dtLt b.datetime minDate)))).filter
    (fun kb => !kb.2.isEmpty)

/-- Python's comparison of `(key, value)` dict items: the keys (tuples)
decide, since keys in a dict are distinct. -/
def kbLt (a b : List Nat × List Backup) : Bool := lexNat a.1 b.1

/-- The Python slice `l[-k:]` (for `k = 0` this is `l[0:]`, the whole list). -/
def pySliceLast (k : Nat) (l : List α) : List α :=
  if k = 0 then l else l.drop (l.length - k)

/-- The period-count cap: `sorted(backups.items())[-retention_period:]`. -/
def capMap (k : Nat) (m : PeriodMap) : PeriodMap :=
  pySliceLast k (sortOn kbLt m)

/-- `apply_rotation_scheme` restricted to one frequency: clear unscheduled
frequencies; reduce each period to its oldest backup; then, unless the value
is `'always'`, age out periods older than the minimum date and cap the
number of remaining periods. -/
def applyFreq (f : Frequency) (sv : Option SchemeVal) (m : PeriodMap)
    (anchor : DateTime) : PeriodMap :=
  match sv with
  | none => []
  | some .always => reduceMap m
  | some (.count k) => capMap k (ageMap (deltaSub f k anchor) (reduceMap m))

/-- `apply_rotation_scheme` over all five frequencies. -/
def applyRotationScheme (scheme : RotationScheme)
    (grouped : Frequency → PeriodMap) (anchor : DateTime) :
    Frequency → PeriodMap :=
  fun f => applyFreq f (scheme f) (grouped f) anchor

/-- The preservation map: Python dict from `Backup` to its list of votes. -/
abbrev PreservationMap := List (Backup × List Frequency)

/-- `backups_to_preserve[backup].append(frequency)` on a `defaultdict(list)`:
dict key lookup by hash plus `__eq__`. -/
def pvAdd (pm : PreservationMap) (b : Backup) (f : Frequency) : PreservationMap :=
  match pm with
  | [] => [(b, [f])]
  | (b0, fs) :: rest =>
    if backupDictKeyMatch b0 b then (b0, fs ++ [f]) :: rest
    else (b0, fs) :: pvAdd rest b f

/-- `find_preservation_criteria`: iterate frequencies in canonical ascending
order and record, per backup, the frequencies that kept it. -/
def findPreservationCriteria (applied : Frequency → PeriodMap) : PreservationMap :=
  orderedFrequencies.foldl
    (fun pm f =>
      (applied f).foldl (fun pm kb => kb.2.foldl (fun pm b => pvAdd pm b f) pm) pm)
    []

/-- `backup in backups_to_preserve`: dict membership by hash plus `__eq__`. -/
def pyMemPreservation (pm : PreservationMap) (b : Backup) : Bool :=
  pm.any (fun e => backupDictKeyMatch e.1 b)

/-- The decision part of `rotate_backups`: from the sorted collected backups,
compute the preserved backups (present in the preservation map) and the
doomed backups (absent; these get the `rm -Rf` call), in collection order.
An empty collection returns immediately with nothing classified. -/
def rotateDecide (scheme : RotationScheme) (sortedBackups : List Backup) :
    List Backup × List Backup :=
  match sortedBackups.getLast? with
  | none => ([], [])
  | some mostRecent =>
    let applied := applyRotationScheme scheme (groupBackups sortedBackups) mostRecent.datetime
    let pmap := findPreservationCriteria applied
    (sortedBackups.filter (fun b => pyMemPreservation pmap b),
     sortedBackups.filter (fun b => !pyMemPreservation pmap b))

deriving instance DecidableEq for Except

/-- Concrete backups used by witnesses. -/
def bakA : Backup := ⟨"/d/a", ⟨2015, 6, 1, 0, 0, 0⟩⟩

def bakB : Backup := ⟨"/d/b", ⟨2015, 6, 2, 0, 0, 0⟩⟩

def bakC : Backup := ⟨"/d/c", ⟨2015, 6, 3, 0, 0, 0⟩⟩

/-- The scheme and backups of the C3 idempotence counterexample. -/
def c3scheme : RotationScheme := fun f =>
  match f with
  | .weekly => some (.count 2)
  | .monthly => some .always
  | _ => none

def c3b1 : Backup := ⟨"/d/b-20160101", ⟨2016, 1, 1, 0, 0, 0⟩⟩

def c3b2 : Backup := ⟨"/d/b-20160108", ⟨2016, 1, 8, 0, 0, 0⟩⟩

def c3b3 : Backup := ⟨"/d/b-20160111", ⟨2016, 1, 11, 0, 0, 0⟩⟩

def c3b4 : Backup := ⟨"/d/b-20160116", ⟨2016, 1, 16, 0, 0, 0⟩⟩

/-! ## Theorems -/

theorem lexLtBy_asymm (lt : α → α → Bool)
    (hasym : ∀ a b, lt a b = true → lt b a = false) :
    ∀ l₁ l₂, lexLtBy lt l₁ l₂ = true → lexLtBy lt l₂ l₁ = false := by
  intro l₁
  induction l₁ with
  | nil => intro l₂ h; cases l₂ <;> simp [lexLtBy] at h ⊢
  | cons a as ih =>
    intro l₂ h
    cases l₂ with
    | nil => simp [lexLtBy] at h
    | cons b bs =>
      simp only [lexLtBy] at h ⊢
      by_cases hab : lt a b = true
      · simp [hab, hasym a b hab]
      · by_cases hba : lt b a = true
        · simp [hab, hba] at h
        · simp only [hab, hba, if_false, Bool.false_eq_true] at h ⊢
          simpa [hba, hab] using ih bs (by simpa [hab, hba] using h)

theorem lexLtBy_conn (lt : α → α → Bool)
    (hconn : ∀ a b, lt a b = false → lt b a = false → a = b) :
    ∀ l₁ l₂, lexLtBy lt l₁ l₂ = false → lexLtBy lt l₂ l₁ = false → l₁ = l₂ := by
  intro l₁
  induction l₁ with
  | nil => intro l₂ h12 _; cases l₂ <;> simp [lexLtBy] at h12 ⊢
  | cons a as ih =>
    intro l₂ h12 h21
    cases l₂ with
    | nil => simp [lexLtBy] at h21
    | cons b bs =>
      simp only [lexLtBy] at h12 h21
      by_cases hab : lt a b = true
      · simp [hab] at h12
      · by_cases hba : lt b a = true
        · simp [hba, hab] at h21
        · have ha : a = b :=
            hconn a b (by simpa using hab) (by simpa using hba)
          have hs : as = bs := by
            apply ih bs
            · simpa [hab, hba] using h12
            · simpa [hab, hba] using h21
          rw [ha, hs]

theorem lexLtBy_trans (lt : α → α → Bool)
    (htrans : ∀ a b c, lt a b = true → lt b c = true → lt a c = true)
    (hconn : ∀ a b, lt a b = false → lt b a = false → a = b) :
    ∀ l₁ l₂ l₃, lexLtBy lt l₁ l₂ = true → lexLtBy lt l₂ l₃ = true →
      lexLtBy lt l₁ l₃ = true := by
  intro l₁
  induction l₁ with
  | nil =>
    intro l₂ l₃ h12 h23
    cases l₂ with
    | nil => simp [lexLtBy] at h12
    | cons b bs =>
      cases l₃ with
      | nil => simp [lexLtBy] at h23
      | cons c cs => simp [lexLtBy]
  | cons a as ih =>
    intro l₂ l₃ h12 h23
    cases l₂ with
    | nil => simp [lexLtBy] at h12
    | cons b bs =>
      cases l₃ with
      | nil => simp [lexLtBy] at h23
      | cons c cs =>
        simp only [lexLtBy] at h12 h23 ⊢
        by_cases hab : lt a b = true
        · by_cases hbc : lt b c = true
          · simp [htrans a b c hab hbc]
          · by_cases hcb : lt c b = true
            · simp [hab, hbc, hcb] at h23
            · have : b = c := hconn b c (by simpa using hbc) (by simpa using hcb)
              subst this
              simp [hab]
        · by_cases hba : lt b a = true
          · simp [hab, hba] at h12
          · have : a = b := hconn a b (by simpa using hab) (by simpa using hba)
            subst this
            by_cases hac : lt a c = true
            · simp [hac]
            · by_cases hca : lt c a = true
              · simp [hac, hca] at h23
              · have has : lexLtBy lt as bs = true := by simpa [hab, hba] using h12
                have hbs : lexLtBy lt bs cs = true := by simpa [hac, hca] using h23
                simp [hac, hca, ih bs cs has hbs]

theorem lexLtBy_irrefl (lt : α → α → Bool)
    (hasym : ∀ a b, lt a b = true → lt b a = false) :
    ∀ l, lexLtBy lt l l = false := by
  intro l
  induction l with
  | nil => simp [lexLtBy]
  | cons a as ih =>
    simp only [lexLtBy]
    by_cases h : lt a a = true
    · have := hasym a a h; rw [this] at h; exact absurd h (by simp)
    · simp [h, ih]

theorem natLtB_asymm : ∀ a b, natLtB a b = true → natLtB b a = false := by
  intro a b h; simp [natLtB] at h ⊢; omega

theorem natLtB_trans :
    ∀ a b c, natLtB a b = true → natLtB b c = true → natLtB a c = true := by
  intro a b c h1 h2; simp [natLtB] at h1 h2 ⊢; omega

theorem natLtB_conn : ∀ a b : Nat, natLtB a b = false → natLtB b a = false → a = b := by
  intro a b h1 h2; simp [natLtB] at h1 h2; omega

theorem lexNat_asymm : ∀ l₁ l₂, lexNat l₁ l₂ = true → lexNat l₂ l₁ = false :=
  lexLtBy_asymm natLtB natLtB_asymm

theorem lexNat_trans : ∀ l₁ l₂ l₃, lexNat l₁ l₂ = true → lexNat l₂ l₃ = true →
    lexNat l₁ l₃ = true :=
  lexLtBy_trans natLtB natLtB_trans natLtB_conn

theorem lexNat_conn : ∀ l₁ l₂, lexNat l₁ l₂ = false → lexNat l₂ l₁ = false → l₁ = l₂ :=
  lexLtBy_conn natLtB natLtB_conn

theorem lexNat_irrefl : ∀ l, lexNat l l = false :=
  lexLtBy_irrefl natLtB natLtB_asymm

theorem insLt_perm (lt : α → α → Bool) (x : α) :
    ∀ l : List α, (insLt lt x l).Perm (x :: l) := by
  intro l
  induction l with
  | nil => simp [insLt]
  | cons y ys ih =>
    simp only [insLt]
    by_cases h : lt x y = true
    · simp [h]
    · simp only [h, if_false, Bool.false_eq_true]
      exact (ih.cons y).trans (List.Perm.swap x y ys)

theorem sortOn_aux_perm (lt : α → α → Bool) :
    ∀ (l acc : List α), (l.foldl (fun acc x => insLt lt x acc) acc).Perm (acc ++ l) := by
  intro l
  induction l with
  | nil => intro acc; simp
  | cons x xs ih =>
    intro acc
    simp only [List.foldl_cons]
    refine (ih (insLt lt x acc)).trans ?_
    refine (List.Perm.append_right xs (insLt_perm lt x acc)).trans ?_
    simpa using List.perm_middle.symm

theorem sortOn_perm (lt : α → α → Bool) (l : List α) : (sortOn lt l).Perm l := by
  simpa using sortOn_aux_perm lt l []

theorem mem_sortOn (lt : α → α → Bool) (l : List α) (a : α) :
    a ∈ sortOn lt l ↔ a ∈ l :=
  (sortOn_perm lt l).mem_iff

theorem mem_insLt (lt : α → α → Bool) (x : α) (l : List α) (a : α) :
    a ∈ insLt lt x l ↔ a = x ∨ a ∈ l := by
  rw [(insLt_perm lt x l).mem_iff]; simp

theorem insLt_pairwise (lt : α → α → Bool)
    (hasym : ∀ a b, lt a b = true → lt b a = false)
    (htrans : ∀ a b c, lt a b = true → lt b c = true → lt a c = true)
    (x : α) :
    ∀ l : List α, l.Pairwise (fun a b => lt b a = false) →
      (insLt lt x l).Pairwise (fun a b => lt b a = false) := by
  intro l
  induction l with
  | nil => intro _; simp [insLt]
  | cons y ys ih =>
    intro hp
    rw [List.pairwise_cons] at hp
    obtain ⟨hy, hys⟩ := hp
    simp only [insLt]
    by_cases h : lt x y = true
    · simp only [h, if_true]
      rw [List.pairwise_cons]
      constructor
      · intro z hz
        rcases List.mem_cons.mp hz with hz | hz
        · rw [hz]; exact hasym x y h
        · -- z ∈ ys; lt z y = false; if lt z x then lt z y, contradiction
          by_contra hzx
          rw [Bool.not_eq_false] at hzx
          have := htrans z x y hzx h
          rw [hy z hz] at this
          exact absurd this (by simp)
      · exact List.pairwise_cons.mpr ⟨hy, hys⟩
    · simp only [h, if_false, Bool.false_eq_true]
      rw [List.pairwise_cons]
      constructor
      · intro z hz
        rcases (mem_insLt lt x ys z).mp hz with hz | hz
        · subst hz; simpa using h
        · exact hy z hz
      · exact ih hys

theorem sortOn_pairwise (lt : α → α → Bool)
    (hasym : ∀ a b, lt a b = true → lt b a = false)
    (htrans : ∀ a b c, lt a b = true → lt b c = true → lt a c = true)
    (l : List α) :
    (sortOn lt l).Pairwise (fun a b => lt b a = false) := by
  suffices h : ∀ (l acc : List α), acc.Pairwise (fun a b => lt b a = false) →
      (l.foldl (fun acc x => insLt lt x acc) acc).Pairwise (fun a b => lt b a = false) by
    exact h l [] (by simp)
  intro l
  induction l with
  | nil => intro acc h; simpa using h
  | cons x xs ih =>
    intro acc h
    simp only [List.foldl_cons]
    exact ih (insLt lt x acc) (insLt_pairwise lt hasym htrans x acc h)

/-- Two sorted lists that are permutations of each other are equal, provided
elements of the list that compare as equivalent are actually equal. -/
theorem sorted_perm_eq (lt : α → α → Bool) :
    ∀ l₁ l₂ : List α, l₁.Perm l₂ →
      l₁.Pairwise (fun a b => lt b a = false) →
      l₂.Pairwise (fun a b => lt b a = false) →
      (∀ a ∈ l₁, ∀ b ∈ l₁, lt a b = false → lt b a = false → a = b) →
      l₁ = l₂ := by
  intro l₁
  induction l₁ with
  | nil => intro l₂ hp _ _ _; simpa using hp.nil_eq
  | cons a as ih =>
    intro l₂ hp hp₁ hp₂ hanti
    cases l₂ with
    | nil => exact absurd hp.symm.nil_eq (by simp)
    | cons b bs =>
      have hab : a = b := by
        by_cases h : a = b
        · exact h
        · have ha2 : a ∈ b :: bs := hp.subset (by simp)
          have hb1 : b ∈ a :: as := hp.symm.subset (by simp)
          have ha2' : a ∈ bs := by
            rcases ha2 with _ | h2
            · exact absurd rfl h
            · assumption
          have hb1' : b ∈ as := by
            rcases hb1 with _ | h2
            · exact absurd rfl (fun he => h he.symm)
            · assumption
          have h1 : lt b a = false := (List.pairwise_cons.mp hp₁).1 b hb1'
          have h2 : lt a b = false := (List.pairwise_cons.mp hp₂).1 a ha2'
          exact hanti a (by simp) b (by simp [hb1']) h2 h1
      subst hab
      have htl : as.Perm bs := hp.cons_inv
      have := ih bs htl (List.pairwise_cons.mp hp₁).2 (List.pairwise_cons.mp hp₂).2
        (fun x hx y hy => hanti x (by simp [hx]) y (by simp [hy]))
      rw [this]

theorem dtFields_inj {a b : DateTime} (h : dtFields a = dtFields b) : a = b := by
  cases a; cases b
  simp only [dtFields, List.cons.injEq, and_true] at h
  obtain ⟨h1, h2, h3, h4, h5, h6⟩ := h
  simp_all

theorem dtLt_asymm : ∀ a b, dtLt a b = true → dtLt b a = false := by
  intro a b h; exact lexNat_asymm _ _ h

theorem dtLt_trans : ∀ a b c, dtLt a b = true → dtLt b c = true → dtLt a c = true := by
  intro a b c h1 h2; exact lexNat_trans _ _ _ h1 h2

theorem dtLt_conn : ∀ a b, dtLt a b = false → dtLt b a = false → a = b := by
  intro a b h1 h2; exact dtFields_inj (lexNat_conn _ _ h1 h2)

theorem dtLt_irrefl : ∀ a, dtLt a a = false := by
  intro a; exact lexNat_irrefl _

/-- Validation of the calendar model against known dates: round trips of the
rata-die conversion, a day-of-week, ISO week numbers around year boundaries
(matching Python `isocalendar()[1]`), and the clamping month/year
subtraction of `dateutil`. -/
theorem calendar_model_sanity :
    civilFromDays (rataDie 2016 1 1) = (2016, 1, 1)
      ∧ civilFromDays (rataDie 2016 3 1) = (2016, 3, 1)
      ∧ civilFromDays (rataDie 2016 1 11 - 14) = (2015, 12, 28)
      ∧ isoDayOfWeek (rataDie 2016 1 1) = 5
      ∧ isoWeekNum 2016 1 1 = 53
      ∧ isoWeekNum 2016 1 8 = 1
      ∧ isoWeekNum 2016 1 11 = 2
      ∧ isoWeekNum 2016 1 16 = 2
      ∧ isoWeekNum 2014 12 29 = 1
      ∧ isoWeekNum 2015 12 28 = 53
      ∧ isoWeekNum 2015 1 1 = 1
      ∧ isoWeekNum 2015 6 1 = 23
      ∧ subSeconds ⟨2016, 1, 16, 0, 0, 0⟩ (604800 * 2) = ⟨2016, 1, 2, 0, 0, 0⟩
      ∧ subMonths ⟨2016, 3, 31, 1, 2, 3⟩ 1 = ⟨2016, 2, 29, 1, 2, 3⟩
      ∧ subYears ⟨2016, 2, 29, 0, 0, 0⟩ 1 = ⟨2015, 2, 28, 0, 0, 0⟩ := by
  decide

/-- Validation of the timestamp-pattern model: embedded timestamps with and
without separators, match-time acceptance of calendar-invalid fields, the
regex quirk that a 10-digit run yields only a date (hour without minute
fails the optional group), and non-matches. -/
theorem timestamp_pattern_sanity :
    tsSearch "backup-20150601120000" = some (2015, 6, 1, 12, 0, 0)
      ∧ tsSearch "backup-2015-06-01_12:30:45.tgz" = some (2015, 6, 1, 12, 30, 45)
      ∧ tsSearch "x-20151301" = some (2015, 13, 1, 0, 0, 0)
      ∧ tsSearch "2015060112" = some (2015, 6, 1, 0, 0, 0)
      ∧ tsSearch "hello" = none
      ∧ tsSearch "2015060" = none := by
  refine ⟨by decide, by decide, by decide, by decide, by decide, by decide⟩

theorem natLt_asymm : ∀ a b, natLt a b = true → natLt b a = false := by
  intro a b h; exact lexLtBy_asymm lexNat lexNat_asymm _ _ h

theorem natLt_trans : ∀ a b c, natLt a b = true → natLt b c = true → natLt a c = true := by
  intro a b c h1 h2; exact lexLtBy_trans lexNat lexNat_trans lexNat_conn _ _ _ h1 h2

theorem natLt_keyEq : ∀ a b, natLt a b = false → natLt b a = false → natKey a = natKey b := by
  intro a b h1 h2; exact lexLtBy_conn lexNat lexNat_conn _ _ h1 h2

/-- Claim C1 states that a directory entry whose name matches the timestamp
pattern but whose digit fields are calendar-invalid (e.g. month 13) is
skipped like a failed match, with the run continuing.  The code has no
handler around the `datetime.datetime(...)` construction, so the
`ValueError` propagates and aborts `collect_backups`: on the listing
`["x-20151301", "y-20150601"]` the whole collection fails, while the valid
entry alone is collected fine. -/
theorem C1_invalid_date_aborts_collect :
    collectBackups (fun _ _ => false) [] [] "/d" ["x-20151301", "y-20150601"]
        = .error "ValueError"
      ∧ collectBackups (fun _ _ => false) [] [] "/d" ["y-20150601"]
        = .ok [⟨"/d/y-20150601", ⟨2015, 6, 1, 0, 0, 0⟩⟩] :=
  ⟨by decide, by decide⟩

/-- Claim C2 asserts that `Backup.__eq__` compares only the timestamps and
that therefore a dict keyed by `Backup` dedupes on timestamp.  The second
half fails: `__hash__` hashes the pathname, and CPython dicts compare keys
only after their hashes collide, so two equal-timestamp backups with
distinct pathnames occupy two dict slots even though `__eq__` deems them
equal. -/
theorem C2_counterexample :
    backupBeq ⟨"/d/a", ⟨2015, 6, 1, 0, 0, 0⟩⟩ ⟨"/d/b", ⟨2015, 6, 1, 0, 0, 0⟩⟩ = true
      ∧ (pyDictInsert (pyDictInsert ([] : List (Backup × Nat))
            ⟨"/d/a", ⟨2015, 6, 1, 0, 0, 0⟩⟩ 0) ⟨"/d/b", ⟨2015, 6, 1, 0, 0, 0⟩⟩ 0).length = 2
      ∧ ¬ (pyDictInsert (pyDictInsert ([] : List (Backup × Nat))
            ⟨"/d/a", ⟨2015, 6, 1, 0, 0, 0⟩⟩ 0) ⟨"/d/b", ⟨2015, 6, 1, 0, 0, 0⟩⟩ 0).length = 1 := by
  refine ⟨by decide, by decide, by decide⟩

/-- Claim C2, amended: two `Backup`s are equal per `__eq__` iff their
timestamps are equal (the pathname plays no role in `__eq__`); but a dict
keyed by `Backup` collapses two insertions to one slot iff both the
pathname hashes and the timestamps agree, so equal-timestamp backups with
distinct pathnames still occupy two slots. -/
theorem C2_eq_is_timestamp_dict_keys_use_hash (b1 b2 : Backup) (v1 v2 : Nat) :
    (backupBeq b1 b2 = true ↔ b1.datetime = b2.datetime)
      ∧ ((pyDictInsert (pyDictInsert ([] : List (Backup × Nat)) b1 v1) b2 v2).length = 1 ↔
          b1.pathname = b2.pathname ∧ b1.datetime = b2.datetime) := by
  constructor
  · simp [backupBeq]
  · by_cases h : backupDictKeyMatch b1 b2 = true
    · have h2 := h
      simp only [backupDictKeyMatch, backupHashKey, backupBeq, Bool.and_eq_true,
        beq_iff_eq, decide_eq_true_eq] at h2
      simp [pyDictInsert, h, h2.1, h2.2]
    · have h2 := h
      simp only [backupDictKeyMatch, backupHashKey, backupBeq, Bool.and_eq_true,
        beq_iff_eq, decide_eq_true_eq] at h2
      rw [Classical.not_and_iff_or_not_not] at h2
      simp only [pyDictInsert, h, if_false]
      constructor
      · intro hlen; simp at hlen
      · intro hc; exact absurd hc (by tauto)

/-- Claim C3 states that rotation is idempotent: re-running the rotation on
exactly the backups the first run preserved (anchored at the newest
survivor) deletes nothing.  The weekly period key pairs the calendar year
with the ISO week number, so the backup of 2016-01-01 (ISO week 53 of 2015)
gets the weekly key (2016, 53), which sorts after every other weekly key of
2016.  With scheme {weekly: 2, monthly: always} and backups on Jan 1, 8, 11
and 16 of 2016, the first run preserves Jan 1, 8 and 11; in the second run
the anchor moves back to Jan 11, period (2016, 53) survives aging and the
count cap then discards period (2016, 1) — deleting the Jan 8 backup that
the first run preserved. -/
theorem C3_second_rotation_deletes_preserved_backup :
    (rotateDecide c3scheme [c3b1, c3b2, c3b3, c3b4]).1 = [c3b1, c3b2, c3b3]
      ∧ c3b2 ∈ (rotateDecide c3scheme [c3b1, c3b2, c3b3, c3b4]).1
      ∧ c3b2 ∉ (rotateDecide c3scheme (rotateDecide c3scheme [c3b1, c3b2, c3b3, c3b4]).1).1
      ∧ c3b2 ∈ (rotateDecide c3scheme (rotateDecide c3scheme [c3b1, c3b2, c3b3, c3b4]).1).2 := by
  refine ⟨by decide, by decide, by decide, by decide⟩

/-- Claim C6: the orchestrator classifies every collected backup exactly
once; the preserved backups and the doomed backups are disjoint and
together are exactly the collected backups. -/
theorem C6_preserved_doomed_partition (scheme : RotationScheme) (bs : List Backup) :
    (∀ b, b ∈ bs ↔ (b ∈ (rotateDecide scheme bs).1 ∨ b ∈ (rotateDecide scheme bs).2))
      ∧ ∀ b, ¬(b ∈ (rotateDecide scheme bs).1 ∧ b ∈ (rotateDecide scheme bs).2) := by
  unfold rotateDecide
  cases hl : bs.getLast? with
  | none =>
    have : bs = [] := List.getLast?_eq_none_iff.mp hl
    subst this
    simp
  | some mostRecent =>
    constructor
    · intro b
      simp only [List.mem_filter]
      by_cases h : pyMemPreservation
          (findPreservationCriteria
            (applyRotationScheme scheme (groupBackups bs) mostRecent.datetime)) b = true
      · simp [h]
      · simp [h]
    · intro b
      simp only [List.mem_filter]
      intro ⟨⟨_, h1⟩, ⟨_, h2⟩⟩
      rw [h1] at h2
      exact absurd h2 (by simp)

/-- Claim C5: with the `'always'` sentinel, `apply_rotation_scheme` removes
no period key, whatever the anchor is: the key sequence is unchanged, the
whole effect is the per-period reduction, and every period still holds its
single representative. -/
theorem C5_always_keeps_all_periods (f : Frequency) (m : PeriodMap) (anchor : DateTime)
    (hne : ∀ kb ∈ m, kb.2 ≠ []) :
    (applyFreq f (some .always) m anchor).map Prod.fst = m.map Prod.fst
      ∧ applyFreq f (some .always) m anchor = reduceMap m
      ∧ ∀ kb ∈ applyFreq f (some .always) m anchor, kb.2.length = 1 := by
  refine ⟨?_, rfl, ?_⟩
  · simp [applyFreq, reduceMap]
  · intro kb hkb
    simp only [applyFreq, reduceMap, List.mem_map] at hkb
    obtain ⟨kb0, hkb0, hrw⟩ := hkb
    have hne0 : kb0.2 ≠ [] := hne kb0 hkb0
    have : sortOn backupLt kb0.2 ≠ [] := by
      intro hc
      have := (sortOn_perm backupLt kb0.2).length_eq
      rw [hc] at this
      exact hne0 (List.eq_nil_of_length_eq_zero this.symm)
    subst hrw
    simp only [reduceBucket]
    cases hs : sortOn backupLt kb0.2 with
    | nil => exact absurd hs this
    | cons b t => simp

/-- Claim C7: the per-period reduction leaves exactly one backup in every
nonempty period bucket, namely an oldest backup of that period. -/
theorem C7_reduction_keeps_single_oldest (m : PeriodMap) (k : List Nat) (bs : List Backup)
    (hmem : (k, bs) ∈ m) (hne : bs ≠ []) :
    ∃ b, (k, [b]) ∈ reduceMap m ∧ reduceBucket bs = [b] ∧ b ∈ bs
      ∧ ∀ x ∈ bs, dtLt x.datetime b.datetime = false := by
  have hsne : sortOn backupLt bs ≠ [] := by
    intro hc
    have := (sortOn_perm backupLt bs).length_eq
    rw [hc] at this
    exact hne (List.eq_nil_of_length_eq_zero this.symm)
  cases hs : sortOn backupLt bs with
  | nil => exact absurd hs hsne
  | cons b t =>
    refine ⟨b, ?_, ?_, ?_, ?_⟩
    · have := List.mem_map_of_mem (fun kb : List Nat × List Backup => (kb.1, reduceBucket kb.2)) hmem
      simpa [reduceMap, reduceBucket, hs] using this
    · simp [reduceBucket, hs]
    · have : b ∈ sortOn backupLt bs := by rw [hs]; simp
      exact (mem_sortOn backupLt bs b).mp this
    · intro x hx
      have hx' : x ∈ sortOn backupLt bs := (mem_sortOn backupLt bs x).mpr hx
      rw [hs] at hx'
      rcases List.mem_cons.mp hx' with hx' | hx'
      · rw [hx']; exact dtLt_irrefl _
      · have hp := sortOn_pairwise backupLt
          (fun a b h => dtLt_asymm _ _ h) (fun a b c h1 h2 => dtLt_trans _ _ _ h1 h2) bs
        rw [hs, List.pairwise_cons] at hp
        exact hp.1 x hx'

/-- Witness for C5 at a concrete one-period map. -/
theorem C5_witness :
    ((applyFreq .yearly (some .always) [([2015], [bakA])] bakA.datetime).map Prod.fst
        = ([([2015], [bakA])] : PeriodMap).map Prod.fst)
      ∧ applyFreq .yearly (some .always) [([2015], [bakA])] bakA.datetime
        = reduceMap [([2015], [bakA])]
      ∧ ∀ kb ∈ applyFreq .yearly (some .always) [([2015], [bakA])] bakA.datetime,
          kb.2.length = 1 :=
  C5_always_keeps_all_periods .yearly _ _ (by decide)

/-- Witness for C7 at a concrete three-backup bucket. -/
theorem C7_witness :
    ∃ b, ([2015], [b]) ∈ reduceMap [([2015], [bakC, bakA, bakB])]
      ∧ reduceBucket [bakC, bakA, bakB] = [b]
      ∧ b ∈ [bakC, bakA, bakB]
      ∧ ∀ x ∈ [bakC, bakA, bakB], dtLt x.datetime b.datetime = false :=
  C7_reduction_keeps_single_oldest _ [2015] _ (by decide) (by decide)

/-- Claim C4: for a finite scheme count `k ≥ 1` (scheme counts are positive
integers), if at least `k` periods survive the aging step then the
period-count cap keeps exactly `k` periods of the aged map — and every
discarded period has a key smaller than every kept period's key, i.e.
exactly the `k` largest-keyed periods remain. -/
theorem C4_cap_keeps_k_largest
    (f : Frequency) (k : Nat) (m : PeriodMap) (anchor : DateTime)
    (hk : 1 ≤ k)
    (hnd : ((ageMap (deltaSub f k anchor) (reduceMap m)).map Prod.fst).Nodup)
    (hN : k ≤ (ageMap (deltaSub f k anchor) (reduceMap m)).length) :
    (applyFreq f (some (.count k)) m anchor).length = k
      ∧ (∀ kb ∈ applyFreq f (some (.count k)) m anchor,
          kb ∈ ageMap (deltaSub f k anchor) (reduceMap m))
      ∧ ∀ kb ∈ ageMap (deltaSub f k anchor) (reduceMap m),
          kb ∉ applyFreq f (some (.count k)) m anchor →
          ∀ kb' ∈ applyFreq f (some (.count k)) m anchor, lexNat kb.1 kb'.1 = true := by
  have hperm := sortOn_perm kbLt (ageMap (deltaSub f k anchor) (reduceMap m))
  have hlenS := hperm.length_eq
  have happ : applyFreq f (some (.count k)) m anchor
      = (sortOn kbLt (ageMap (deltaSub f k anchor) (reduceMap m))).drop
          ((sortOn kbLt (ageMap (deltaSub f k anchor) (reduceMap m))).length - k) := by
    show capMap k _ = _
    unfold capMap pySliceLast
    rw [if_neg (by omega)]
  refine ⟨?_, ?_, ?_⟩
  · rw [happ, List.length_drop]
    omega
  · intro kb hkb
    rw [happ] at hkb
    exact hperm.subset (List.mem_of_mem_drop hkb)
  · intro kb hkbA hkbNot kb' hkb'
    rw [happ] at hkbNot hkb'
    have hkbS : kb ∈ sortOn kbLt (ageMap (deltaSub f k anchor) (reduceMap m)) :=
      hperm.mem_iff.mpr hkbA
    have hsplit : sortOn kbLt (ageMap (deltaSub f k anchor) (reduceMap m))
        = (sortOn kbLt (ageMap (deltaSub f k anchor) (reduceMap m))).take
            ((sortOn kbLt (ageMap (deltaSub f k anchor) (reduceMap m))).length - k)
          ++ (sortOn kbLt (ageMap (deltaSub f k anchor) (reduceMap m))).drop
            ((sortOn kbLt (ageMap (deltaSub f k anchor) (reduceMap m))).length - k) :=
      (List.take_append_drop _ _).symm
    have hkbTake : kb ∈ (sortOn kbLt (ageMap (deltaSub f k anchor) (reduceMap m))).take
        ((sortOn kbLt (ageMap (deltaSub f k anchor) (reduceMap m))).length - k) := by
      rcases List.mem_append.mp (by rw [← hsplit]; exact hkbS) with h | h
      · exact h
      · exact absurd h hkbNot
    have hpw := sortOn_pairwise kbLt (fun a b h => lexNat_asymm _ _ h)
      (fun a b c h1 h2 => lexNat_trans _ _ _ h1 h2)
      (ageMap (deltaSub f k anchor) (reduceMap m))
    rw [hsplit, List.pairwise_append] at hpw
    have hcross := hpw.2.2 kb hkbTake kb' hkb'
    have hndS : ((sortOn kbLt (ageMap (deltaSub f k anchor) (reduceMap m))).map
        Prod.fst).Nodup := ((hperm.map Prod.fst).nodup_iff).mpr hnd
    have hne : kb ≠ kb' := by
      intro he
      rw [he] at hkbNot
      exact hkbNot hkb'
    have hkb'S : kb' ∈ sortOn kbLt (ageMap (deltaSub f k anchor) (reduceMap m)) :=
      List.mem_of_mem_drop hkb'
    have hkeys : kb.1 ≠ kb'.1 := by
      intro he
      exact hne (List.inj_on_of_nodup_map hndS hkbS hkb'S he)
    cases hlt : lexNat kb.1 kb'.1 with
    | true => rfl
    | false => exact absurd (lexNat_conn _ _ hlt hcross) hkeys

/-- Witness for C4 at a concrete two-period daily map with `k = 1`. -/
theorem C4_witness :
    (applyFreq .daily (some (.count 1)) [([2015, 6, 1], [bakA]), ([2015, 6, 2], [bakB])]
        bakB.datetime).length = 1
      ∧ (∀ kb ∈ applyFreq .daily (some (.count 1))
            [([2015, 6, 1], [bakA]), ([2015, 6, 2], [bakB])] bakB.datetime,
          kb ∈ ageMap (deltaSub .daily 1 bakB.datetime)
            (reduceMap [([2015, 6, 1], [bakA]), ([2015, 6, 2], [bakB])]))
      ∧ ∀ kb ∈ ageMap (deltaSub .daily 1 bakB.datetime)
            (reduceMap [([2015, 6, 1], [bakA]), ([2015, 6, 2], [bakB])]),
          kb ∉ applyFreq .daily (some (.count 1))
            [([2015, 6, 1], [bakA]), ([2015, 6, 2], [bakB])] bakB.datetime →
          ∀ kb' ∈ applyFreq .daily (some (.count 1))
            [([2015, 6, 1], [bakA]), ([2015, 6, 2], [bakB])] bakB.datetime,
            lexNat kb.1 kb'.1 = true :=
  C4_cap_keeps_k_largest .daily 1 _ _ (by decide) (by decide) (by decide)

/-- Folding the collection step over an error accumulator keeps the error
(a raised `ValueError` aborts the whole loop). -/
theorem collectFold_error (fn : String → String → Bool) (inc exc : List String)
    (dir : String) :
    ∀ (l : List String) (e : String),
      l.foldl (collectStep fn inc exc dir) (.error e) = .error e := by
  intro l
  induction l with
  | nil => intro e; rfl
  | cons x xs ih => intro e; simp only [List.foldl_cons]; exact ih e

/-- `os.path.join` with a fixed directory is injective in the entry name. -/
theorem pathJoin_inj (dir : String) {e1 e2 : String} (h : pathJoin dir e1 = pathJoin dir e2) :
    e1 = e2 := by
  unfold pathJoin at h
  have hd := congrArg String.data h
  simp only [String.data_append, List.append_assoc] at hd
  exact String.ext (List.append_cancel_left (List.append_cancel_left hd))

/-- Case analysis of one collection step on an ok accumulator: either the
entry is skipped, or a `ValueError` is raised, or a backup for the entry is
appended — and in the latter case the exclude filter did not match it. -/
theorem collectStep_ok_cases (fn : String → String → Bool) (inc exc : List String)
    (dir : String) (acc : List Backup) (x : String) :
    collectStep fn inc exc dir (.ok acc) x = .ok acc
      ∨ (∃ e, collectStep fn inc exc dir (.ok acc) x = .error e)
      ∨ ∃ dt, collectStep fn inc exc dir (.ok acc) x = .ok (acc ++ [⟨pathJoin dir x, dt⟩])
          ∧ (!exc.isEmpty && exc.any (fun p => fn x p)) = false := by
  unfold collectStep
  cases hts : tsSearch x with
  | none => left; rfl
  | some r =>
    obtain ⟨y, mo, d, h, mi, s⟩ := r
    by_cases hex : (!exc.isEmpty && exc.any (fun p => fn x p)) = true
    · left; simp [hex]
    · by_cases hin : (!inc.isEmpty && !inc.any (fun p => fn x p)) = true
      · left; simp [hex, hin]
      · cases hdt : datetimeMk y mo d h mi s with
        | error e =>
          right; left
          exact ⟨e, by simp [hex, hin, hdt]⟩
        | ok dt =>
          right; right
          exact ⟨dt, by simp [hex, hin, hdt], by simpa using hex⟩

/-- Through the whole collection loop, no backup is ever created for an
entry that matches the exclude list. -/
theorem collectFold_excluded (fn : String → String → Bool) (inc exc : List String)
    (dir entry : String) (hne : exc ≠ []) (hm : ∃ p ∈ exc, fn entry p = true) :
    ∀ (l : List String) (acc : List Backup),
      (∀ b ∈ acc, b.pathname ≠ pathJoin dir entry) →
      ∀ out, l.foldl (collectStep fn inc exc dir) (.ok acc) = .ok out →
        ∀ b ∈ out, b.pathname ≠ pathJoin dir entry := by
  intro l
  induction l with
  | nil =>
    intro acc hacc out hout
    simp only [List.foldl_nil] at hout
    cases hout
    exact hacc
  | cons x xs ih =>
    intro acc hacc out hout
    simp only [List.foldl_cons] at hout
    rcases collectStep_ok_cases fn inc exc dir acc x with hstep | ⟨e, hstep⟩ | ⟨dt, hstep, hcond⟩
    · rw [hstep] at hout
      exact ih acc hacc out hout
    · rw [hstep, collectFold_error] at hout
      cases hout
    · rw [hstep] at hout
      have hxe : x ≠ entry := by
        intro he
        subst he
        have h1 : exc.isEmpty = false := by
          cases exc with
          | nil => exact absurd rfl hne
          | cons p ps => rfl
        have h2 : exc.any (fun p => fn x p) = true := by
          rw [List.any_eq_true]
          obtain ⟨p, hp, hfp⟩ := hm
          exact ⟨p, hp, hfp⟩
        rw [h1, h2] at hcond
        cases hcond
      exact ih _ (by
        intro b hb
        rcases List.mem_append.mp hb with hb | hb
        · exact hacc b hb
        · have : b = ⟨pathJoin dir x, dt⟩ := by simpa using hb
          rw [this]
          intro hc
          exact hxe (pathJoin_inj dir hc)) out hout

/-- Claim C8: an entry whose name matches the timestamp pattern is skipped
whenever a nonempty exclude list has a pattern matching it — even when it
also matches the include list: no backup with that entry's pathname appears
in the collection result. -/
theorem C8_exclude_overrides_include
    (fn : String → String → Bool) (inc exc : List String)
    (dir entry : String) (entries : List String) (bs : List Backup)
    (hne : exc ≠ [])
    (hm : ∃ p ∈ exc, fn entry p = true)
    (hok : collectBackups fn inc exc dir entries = .ok bs) :
    ∀ b ∈ bs, b.pathname ≠ pathJoin dir entry := by
  unfold collectBackups at hok
  cases hfold : (sortOn natLt entries).foldl (collectStep fn inc exc dir) (.ok []) with
  | error e => rw [hfold] at hok; cases hok
  | ok backups =>
    rw [hfold] at hok
    cases hok
    intro b hb
    have hb' : b ∈ backups := (mem_sortOn _ _ _).mp hb
    exact collectFold_excluded fn inc exc dir entry hne hm _ [] (by simp) backups hfold b hb'

/-- Witness for C8: with a star include pattern and an exclude pattern
naming one entry, that entry is excluded even though it matches the include
list, while the other entry is collected. -/
theorem C8_witness :
    collectBackups (fun n p => p == "*" || n == p) ["*"] ["x-20150601"] "/d"
        ["x-20150601", "y-20150602"] = .ok [⟨"/d/y-20150602", ⟨2015, 6, 2, 0, 0, 0⟩⟩]
      ∧ ∀ b ∈ [(⟨"/d/y-20150602", ⟨2015, 6, 2, 0, 0, 0⟩⟩ : Backup)],
          b.pathname ≠ pathJoin "/d" "x-20150601" :=
  ⟨by decide,
   C8_exclude_overrides_include (fun n p => p == "*" || n == p) ["*"] ["x-20150601"] "/d"
     "x-20150601" ["x-20150601", "y-20150602"] _ (by decide) (by decide) (by decide)⟩

/-- Claim C9 asserts that two runs of `collect_backups` over any two
orderings of the same entry set produce identical output lists.  This fails
when two entry names have equal natural-sort keys: the pre-sort is stable,
so their relative order follows the listing order, and when they also parse
to the same timestamp the final stable sort preserves that difference.
`backup1-...` and `backup01-...` have equal natural-sort keys (01 and 1 are
the same number) and equal timestamps, and the two listing orders yield
differently ordered results. -/
theorem C9_counterexample :
    collectBackups (fun _ _ => false) [] [] "/d"
        ["backup1-20150601", "backup01-20150601"]
      ≠ collectBackups (fun _ _ => false) [] [] "/d"
        ["backup01-20150601", "backup1-20150601"] := by
  decide

/-- Claim C9, amended: `collect_backups` is listing-order independent
whenever the entry names have pairwise distinct natural-sort keys (the
`natsort` pre-sort then canonicalizes the order before any further
processing); only entries with colliding natural-sort keys can surface the
filesystem's listing order. -/
theorem C9_order_independent_on_distinct_natkeys
    (fn : String → String → Bool) (inc exc : List String) (dir : String)
    (entries1 entries2 : List String)
    (hperm : entries1.Perm entries2)
    (hnd : (entries1.map natKey).Nodup) :
    collectBackups fn inc exc dir entries1 = collectBackups fn inc exc dir entries2 := by
  have hsort : sortOn natLt entries1 = sortOn natLt entries2 := by
    apply sorted_perm_eq natLt
    · exact (sortOn_perm _ _).trans (hperm.trans (sortOn_perm natLt entries2).symm)
    · exact sortOn_pairwise natLt natLt_asymm natLt_trans _
    · exact sortOn_pairwise natLt natLt_asymm natLt_trans _
    · intro a ha b hb h1 h2
      have ha' : a ∈ entries1 := (mem_sortOn _ _ _).mp ha
      have hb' : b ∈ entries1 := (mem_sortOn _ _ _).mp hb
      exact List.inj_on_of_nodup_map hnd ha' hb' (natLt_keyEq a b h1 h2)
  unfold collectBackups
  rw [hsort]

/-- Witness for the amended C9: two orderings of distinct-keyed entries give
the same result. -/
theorem C9_witness :
    collectBackups (fun _ _ => false) [] [] "/d" ["a-20150601", "b-20150602"]
      = collectBackups (fun _ _ => false) [] [] "/d" ["b-20150602", "a-20150601"] :=
  C9_order_independent_on_distinct_natkeys (fun _ _ => false) [] [] "/d"
    ["a-20150601", "b-20150602"] ["b-20150602", "a-20150601"] (by decide) (by decide)

/-- Subtracting zero seconds is the identity on in-range datetimes. -/
theorem subSeconds_zero (dt : DateTime) (hmi : dt.minute ≤ 59) (hs : dt.second ≤ 59) :
    subSeconds dt 0 = dt := by
  obtain ⟨y, mo, d, h, mi, s⟩ := dt
  simp only at hmi hs
  unfold subSeconds
  rw [if_pos (Nat.zero_le _)]
  simp only [Nat.sub_zero, DateTime.mk.injEq]
  refine ⟨trivial, trivial, trivial, ?_, ?_, ?_⟩ <;> omega

/-- Subtracting zero months is the identity on in-range datetimes. -/
theorem subMonths_zero (dt : DateTime) (hy : 1 ≤ dt.year) (hm1 : 1 ≤ dt.month)
    (hm2 : dt.month ≤ 12) (hd : dt.day ≤ daysInMonth dt.year dt.month) :
    subMonths dt 0 = dt := by
  obtain ⟨y, mo, d, h, mi, s⟩ := dt
  simp only at hy hm1 hm2 hd
  unfold subMonths
  have h1 : (12 * (y - 1) + (mo - 1) - 0) / 12 + 1 = y := by omega
  have h2 : (12 * (y - 1) + (mo - 1) - 0) % 12 + 1 = mo := by omega
  simp only [h1, h2, DateTime.mk.injEq]
  refine ⟨trivial, trivial, by omega, trivial, trivial, trivial⟩

/-- Subtracting zero years is the identity on in-range datetimes. -/
theorem subYears_zero (dt : DateTime) (hd : dt.day ≤ daysInMonth dt.year dt.month) :
    subYears dt 0 = dt := by
  obtain ⟨y, mo, d, h, mi, s⟩ := dt
  simp only at hd
  unfold subYears
  simp only [Nat.sub_zero, DateTime.mk.injEq]
  refine ⟨trivial, trivial, by omega, trivial, trivial, trivial⟩

/-- A zero retention count gives a minimum date equal to the anchor itself
(the relativedelta scaled by zero is the zero delta). -/
theorem deltaSub_zero (f : Frequency) (anchor : DateTime) (hv : dtValid anchor = true) :
    deltaSub f 0 anchor = anchor := by
  simp only [dtValid, Bool.and_eq_true, decide_eq_true_eq] at hv
  obtain ⟨⟨⟨⟨⟨⟨⟨⟨hy1, hy2⟩, hm1⟩, hm2⟩, hd1⟩, hd2⟩, hh⟩, hmi⟩, hs⟩ := hv
  cases f with
  | hourly => rw [show deltaSub .hourly 0 anchor = subSeconds anchor (3600 * 0) from rfl,
      Nat.mul_zero, subSeconds_zero anchor hmi hs]
  | daily => rw [show deltaSub .daily 0 anchor = subSeconds anchor (86400 * 0) from rfl,
      Nat.mul_zero, subSeconds_zero anchor hmi hs]
  | weekly => rw [show deltaSub .weekly 0 anchor = subSeconds anchor (604800 * 0) from rfl,
      Nat.mul_zero, subSeconds_zero anchor hmi hs]
  | monthly => exact subMonths_zero anchor hy1 hm1 hm2 hd2
  | yearly => exact subYears_zero anchor hd2

/-- Claim C10: with a scheme value of 0 (accepted by the API although the
spec only names positive integers), `apply_rotation_scheme` does not retain
zero periods: the aging minimum date is the anchor itself, only periods
whose representative is strictly older than the anchor are removed, the cap
slice `[-0:]` keeps everything that remains, and in particular a period
whose representative's timestamp equals the anchor survives. -/
theorem C10_zero_count_retains_all_unaged
    (f : Frequency) (m : PeriodMap) (anchor : DateTime)
    (hv : dtValid anchor = true) :
    deltaSub f 0 anchor = anchor
      ∧ applyFreq f (some (.count 0)) m anchor = sortOn kbLt (ageMap anchor (reduceMap m))
      ∧ ∀ kb ∈ reduceMap m, (∃ b ∈ kb.2, b.datetime = anchor) →
          kb.1 ∈ (applyFreq f (some (.count 0)) m anchor).map Prod.fst := by
  have hz := deltaSub_zero f anchor hv
  have happ : applyFreq f (some (.count 0)) m anchor
      = sortOn kbLt (ageMap anchor (reduceMap m)) := by
    show capMap 0 (ageMap (deltaSub f 0 anchor) (reduceMap m)) = _
    rw [hz]
    unfold capMap pySliceLast
    rw [if_pos rfl]
  refine ⟨hz, happ, ?_⟩
  intro kb hkb hex
  obtain ⟨b, hb, hbdt⟩ := hex
  rw [happ]
  have hfil : b ∈ kb.2.filter (fun b => !dtLt b.datetime anchor) := by
    rw [List.mem_filter]
    refine ⟨hb, ?_⟩
    rw [hbdt, dtLt_irrefl]
    rfl
  have hmem : (kb.1, kb.2.filter (fun b => !dtLt b.datetime anchor))
      ∈ ageMap anchor (reduceMap m) := by
    unfold ageMap
    rw [List.mem_filter]
    constructor
    · exact List.mem_map_of_mem
        (fun kb : List Nat × List Backup =>
          (kb.1, kb.2.filter (fun b => !dtLt b.datetime anchor))) hkb
    · cases hfl : kb.2.filter (fun b => !dtLt b.datetime anchor) with
      | nil => rw [hfl] at hfil; cases hfil
      | cons c cs => simp [hfl]
  have hsorted : (kb.1, kb.2.filter (fun b => !dtLt b.datetime anchor))
      ∈ sortOn kbLt (ageMap anchor (reduceMap m)) :=
    (mem_sortOn _ _ _).mpr hmem
  simpa using List.mem_map_of_mem Prod.fst hsorted

/-- Witness for C10 at a concrete one-period hourly map whose representative
is exactly the anchor. -/
theorem C10_witness :
    deltaSub .hourly 0 bakA.datetime = bakA.datetime
      ∧ applyFreq .hourly (some (.count 0)) [([2015, 6, 1, 0], [bakA])] bakA.datetime
        = sortOn kbLt (ageMap bakA.datetime (reduceMap [([2015, 6, 1, 0], [bakA])]))
      ∧ ∀ kb ∈ reduceMap [([2015, 6, 1, 0], [bakA])],
          (∃ b ∈ kb.2, b.datetime = bakA.datetime) →
          kb.1 ∈ (applyFreq .hourly (some (.count 0)) [([2015, 6, 1, 0], [bakA])]
            bakA.datetime).map Prod.fst :=
  C10_zero_count_retains_all_unaged .hourly _ _ (by decide)
